import Mathlib

/-
Verification of the GMM implementation in `P4/gmm.py`.

The Python code fits a Gaussian Mixture Model with the EM algorithm
(`GMM.fit`), evaluates data log-likelihood (`GMM.compute_log_likelihood`),
draws samples from a fitted model (`GMM.sample`), and evaluates one
multivariate normal density (`GMM.Gaussian_pdf`).

The shallow embedding below translates the numerical code into functions
over `ℝ`:
* a dataset is `x : Fin N → Fin D → ℝ` (an `N × D` numpy array);
* means are `Fin K → Fin D → ℝ`, covariances `Fin K → Matrix (Fin D) (Fin D) ℝ`,
  mixture weights `Fin K → ℝ`;
* the EM loop of `fit` (lines 101-131 of gmm.py) is modelled by `emLoop`,
  with one important aliasing fact of the Python code captured explicitly:
  inside the loop the locals `means` and `variances` are numpy arrays
  mutated in place, so `self.means` / `self.variances` track them, while
  the local `pi_k = N_k / N` is rebound, so `self.pi_k` keeps its initial
  value until after the loop.  The call
  `l_new = GMM.compute_log_likelihood(self, x)` therefore evaluates the
  likelihood at the new means and covariances but at the *initial* mixture
  weights; the `selfPi` argument threaded through `emStep` records this.
* `fit` never assigns `number_of_updates` unless the tolerance check
  breaks the loop, so a run that exhausts the iteration budget reaches
  `return number_of_updates` with the variable unbound (UnboundLocalError);
  the loop result is therefore an `Option ℕ`, with `none` for that error.
-/

open scoped BigOperators

namespace GMMSpec

noncomputable section

/-- One multivariate normal density object, mirroring the attributes of the
Python class `GMM.Gaussian_pdf`: the mean, the (possibly regularized)
covariance, its precomputed inverse and the normalization constant `c`. -/
structure Gaussian_pdf (D : ℕ) where
  mean : Fin D → ℝ
  variance : Matrix (Fin D) (Fin D) ℝ
  inv : Matrix (Fin D) (Fin D) ℝ
  c : ℝ

/-- Embedding of `Gaussian_pdf.__init__` (gmm.py lines 206-229):
`self.variance = (np.linalg.matrix_rank(variance) < D).astype(int) * np.eye(D) * 0.001 + self.variance`,
then `self.inv = np.linalg.inv(self.variance)` and
`self.c = ((2 * np.pi) ** D) * np.linalg.det(self.variance)`. -/
def Gaussian_pdf.make {D : ℕ} (mean : Fin D → ℝ)
    (variance : Matrix (Fin D) (Fin D) ℝ) : Gaussian_pdf D :=
  let v : Matrix (Fin D) (Fin D) ℝ :=
    ((if variance.rank < D then (1 : ℝ) else 0) * 0.001) •
      (1 : Matrix (Fin D) (Fin D) ℝ) + variance
  { mean := mean
    variance := v
    inv := v⁻¹
    c := (2 * Real.pi) ^ D * v.det }

/-- Embedding of `Gaussian_pdf.getLikelihood` (gmm.py lines 231-254):
`p = np.exp(-0.5 * boo.T @ inv @ boo) / np.sqrt(c)` with `boo = x - mean`. -/
def Gaussian_pdf.getLikelihood {D : ℕ} (g : Gaussian_pdf D) (x : Fin D → ℝ) : ℝ :=
  Real.exp (-0.5 * Matrix.dotProduct (fun d => x d - g.mean d)
      (g.inv.mulVec fun d => x d - g.mean d)) / Real.sqrt g.c

variable {N D K : ℕ}

/-- The weighted density `pi_k[k] * inst[k].getLikelihood(x_i)` used in the
E step (gmm.py line 113) and in `compute_log_likelihood` (line 195). -/
def wDensity (means : Fin K → Fin D → ℝ) (variances : Fin K → Matrix (Fin D) (Fin D) ℝ)
    (pi_k : Fin K → ℝ) (xi : Fin D → ℝ) (k : Fin K) : ℝ :=
  pi_k k * (Gaussian_pdf.make (means k) (variances k)).getLikelihood xi

/-- Embedding of `GMM.compute_log_likelihood` (gmm.py lines 165-203):
per point, the log of the weighted sum of component densities, summed over
the data. -/
def compute_log_likelihood (x : Fin N → Fin D → ℝ) (means : Fin K → Fin D → ℝ)
    (variances : Fin K → Matrix (Fin D) (Fin D) ℝ) (pi_k : Fin K → ℝ) : ℝ :=
  ∑ i, Real.log (∑ k, wDensity means variances pi_k (x i) k)

/-- Embedding of the E step (gmm.py line 113):
`gamma_ik = ((pi_k * Normal).T / (pi_k * Normal).sum(axis=1).T).T`, i.e.
each row of unnormalized responsibilities divided by its total mass. -/
def gamma_ik (x : Fin N → Fin D → ℝ) (means : Fin K → Fin D → ℝ)
    (variances : Fin K → Matrix (Fin D) (Fin D) ℝ) (pi_k : Fin K → ℝ) :
    Fin N → Fin K → ℝ :=
  fun i k =>
    wDensity means variances pi_k (x i) k / ∑ j, wDensity means variances pi_k (x i) j

/-- Cluster responsibility mass `N_k = gamma_ik.sum(axis=0)` (gmm.py line 115). -/
def N_k (g : Fin N → Fin K → ℝ) (k : Fin K) : ℝ := ∑ i, g i k

/-- M-step mean update (gmm.py line 117):
`means[k] = np.multiply(x.T, gamma_ik[:, k]).sum(axis=1) / N_k[k]`. -/
def mstepMeans (x : Fin N → Fin D → ℝ) (g : Fin N → Fin K → ℝ) :
    Fin K → Fin D → ℝ :=
  fun k d => (∑ i, x i d * g i k) / N_k g k

/-- M-step covariance update (gmm.py lines 118-121):
`variances[k] = sum_i gamma_ik[i,k] * np.outer(x_i - means[k], x_i - means[k]) / N_k[k]`,
where `means` is whatever mean vector is in scope at that point. -/
def mstepVariances (x : Fin N → Fin D → ℝ) (g : Fin N → Fin K → ℝ)
    (means : Fin K → Fin D → ℝ) : Fin K → Matrix (Fin D) (Fin D) ℝ :=
  fun k => (N_k g k)⁻¹ •
    ∑ i, g i k • Matrix.vecMulVec (fun d => x i d - means k d) (fun d => x i d - means k d)

/-- M-step weight update (gmm.py line 122): `pi_k = N_k / N`. -/
def newPi (g : Fin N → Fin K → ℝ) : Fin K → ℝ :=
  fun k => N_k g k / (N : ℝ)

/-- The loop-carried state of `fit` (gmm.py lines 101-127): the local
`means`, `variances`, `pi_k`, and the baseline log-likelihood `l`. -/
structure EMState (N D K : ℕ) where
  means : Fin K → Fin D → ℝ
  variances : Fin K → Matrix (Fin D) (Fin D) ℝ
  pi_k : Fin K → ℝ
  l : ℝ

/-- One iteration of the EM loop body (gmm.py lines 107-123).  `selfPi` is
the value of `self.pi_k`: the loop never writes `self.pi_k` (the local
`pi_k = N_k / N` is a rebinding), so the log-likelihood computed at line
123 through the `self` defaults uses the *new* means and variances (the
arrays are mutated in place, and `self.means` / `self.variances` alias
them) but the mixture weights stored in `self.pi_k` before the loop. -/
def emStep (x : Fin N → Fin D → ℝ) (selfPi : Fin K → ℝ) (s : EMState N D K) :
    EMState N D K :=
  let g := gamma_ik x s.means s.variances s.pi_k
  let m' := mstepMeans x g
  let v' := mstepVariances x g m'
  let p' := newPi g
  { means := m'
    variances := v'
    pi_k := p'
    l := compute_log_likelihood x m' v' selfPi }

/-- The sequence of loop states: `emSeq x selfPi s n` is the state after
`n` executed loop bodies, starting from `s`. -/
def emSeq (x : Fin N → Fin D → ℝ) (selfPi : Fin K → ℝ) (s : EMState N D K) :
    ℕ → EMState N D K
  | 0 => s
  | n + 1 => emStep x selfPi (emSeq x selfPi s n)

/-- The convergence test of iteration `j` (gmm.py line 124):
`np.absolute(l - l_new) < self.e`, where `l` is the baseline carried into
iteration `j` and `l_new` the log-likelihood computed in iteration `j`. -/
def stepConv (x : Fin N → Fin D → ℝ) (selfPi : Fin K → ℝ) (s : EMState N D K)
    (e : ℝ) (j : ℕ) : Prop :=
  |(emSeq x selfPi s j).l - (emSeq x selfPi s (j + 1)).l| < e

/-- Embedding of the `for iter in range(self.max_iter)` loop of `fit`
(gmm.py lines 106-127).  The first component is the value of
`number_of_updates`: `some iter` when the convergence check breaks the
loop at counter value `iter`, and `none` when the budget is exhausted
without a break — in that case the Python code reaches
`return number_of_updates` with the variable never assigned and raises
UnboundLocalError instead of returning. -/
def emLoop (x : Fin N → Fin D → ℝ) (selfPi : Fin K → ℝ) (e : ℝ) :
    ℕ → ℕ → EMState N D K → Option ℕ × EMState N D K
  | 0, _, s => (none, s)
  | fuel + 1, iter, s =>
      let s' := emStep x selfPi s
      if |s.l - s'.l| < e then (some iter, s')
      else emLoop x selfPi e fuel (iter + 1) s'

/-- The state entering the loop (gmm.py lines 101-104): the initial
parameters together with the baseline log-likelihood of the initial
parameters. -/
def initState (x : Fin N → Fin D → ℝ) (m : Fin K → Fin D → ℝ)
    (v : Fin K → Matrix (Fin D) (Fin D) ℝ) (p : Fin K → ℝ) : EMState N D K :=
  { means := m, variances := v, pi_k := p, l := compute_log_likelihood x m v p }

/-- The EM part of `fit` (gmm.py lines 101-131), for given initial
parameters: runs the loop with budget `max_iter` and tolerance `e`.
The `selfPi` of the whole run is the initial weight vector `p`. -/
def fitEM (x : Fin N → Fin D → ℝ) (m : Fin K → Fin D → ℝ)
    (v : Fin K → Matrix (Fin D) (Fin D) ℝ) (p : Fin K → ℝ)
    (max_iter : ℕ) (e : ℝ) : Option ℕ × EMState N D K :=
  emLoop x p e max_iter 0 (initState x m v p)

/-- The convergence test of iteration `j` of a `fitEM` run. -/
def fitConv (x : Fin N → Fin D → ℝ) (m : Fin K → Fin D → ℝ)
    (v : Fin K → Matrix (Fin D) (Fin D) ℝ) (p : Fin K → ℝ) (e : ℝ) (j : ℕ) : Prop :=
  stepConv x p (initState x m v p) e j

/-- The state of numpy's global random generator.  `np.random.seed(42)`
replaces whatever state is current with the state determined by 42; the
concrete representation is irrelevant, only that seeding is a constant. -/
def RngState : Type := ℕ

/-- The state obtained from `np.random.seed(n)`. -/
def npSeed (n : ℕ) : RngState := n

/-- Modelled from the spec: the external k-means clustering collaborator
(`KMeans.fit` from `kmeans.py`, line 51 of gmm.py; its source is not part
of the sources here).  Per spec sections 4.2 and 6 it is an opaque black
box returning K cluster centers and a hard per-point assignment, using a
deterministic seedable random source — hence a pure function of the
current random state and the data. -/
def KMeansFit (N D K : ℕ) : Type :=
  RngState → (Fin N → Fin D → ℝ) → (Fin K → Fin D → ℝ) × (Fin N → Fin K)

/-- Modelled from the spec: the external random source's uniform draw
`np.random.rand(K, D)` (gmm.py line 76) — a deterministic function of the
current random state. -/
def RandInit (K D : ℕ) : Type := RngState → Fin K → Fin D → ℝ

/-- Modelled from the spec: the external random source's categorical draw
`np.random.choice(K, N, p=pi_k)` (gmm.py line 157), giving the component
index of the n-th sample — a deterministic function of the current random
state, the draw index and the probability vector. -/
def ChoiceFn (K : ℕ) : Type := RngState → ℕ → (Fin K → ℝ) → Fin K

/-- Modelled from the spec: the external random source's draw
`np.random.multivariate_normal(mean, cov)` (gmm.py line 160) for the n-th
sample — a deterministic function of the current random state, the draw
index, and the chosen component's mean and covariance. -/
def NormalFn (D : ℕ) : Type :=
  RngState → ℕ → (Fin D → ℝ) → Matrix (Fin D) (Fin D) ℝ → Fin D → ℝ

/-- Error message of `raise Exception('Invalid initialization provided')`
(gmm.py line 92). -/
def invalidInitMsg : String := "Invalid initialization provided"

/-- Error message of the assertion at gmm.py line 144. -/
def assertNMsg : String := "N should be a positive integer"

/-- Error message of `raise Exception('Train GMM before sampling')`
(gmm.py line 147). -/
def trainMsg : String := "Train GMM before sampling"

/-- The init-policy string `'k_means'` (gmm.py line 43). -/
def kMeansStr : String := "k_means"

/-- The init-policy string `'random'` (gmm.py line 68). -/
def randomStr : String := "random"

/-- Embedding of the whole of `GMM.fit` (gmm.py lines 28-133) for a model
with `n_cluster = K`.  After `np.random.seed(42)`, the chosen init branch
produces initial parameters:
* `'k_means'` (lines 50-63): centers and one-hot responsibilities from the
  external k-means collaborator, covariances as responsibility-weighted
  outer products around the centers, weights `N_k / N`;
* `'random'` (lines 75-86): uniform random means, identity covariances,
  uniform weights `1 / K`;
* anything else raises `'Invalid initialization provided'` (line 92);
then the EM loop (`fitEM`) runs.  The incoming `rng` argument is the
ambient state of numpy's global generator at call time; it is discarded by
the seed call. -/
def fitRun (kmeansFit : KMeansFit N D K) (randFn : RandInit K D) (rng : RngState)
    (x : Fin N → Fin D → ℝ) (init : String) (max_iter : ℕ) (e : ℝ) :
    Except String (Option ℕ × EMState N D K) :=
  let s := npSeed 42
  if init = kMeansStr then
    let res := kmeansFit s x
    let g : Fin N → Fin K → ℝ := fun i k => if res.2 i = k then 1 else 0
    Except.ok (fitEM x res.1 (mstepVariances x g res.1) (newPi g) max_iter e)
  else if init = randomStr then
    Except.ok (fitEM x (randFn s) (fun _ => (1 : Matrix (Fin D) (Fin D) ℝ))
      (fun _ => 1 / (K : ℝ)) max_iter e)
  else Except.error invalidInitMsg

/-- The `N × D` list of samples built by the loop of gmm.py lines 158-160:
row `n` is one draw from the multivariate normal of the component chosen
for `n`. -/
def sampleList (cf : ChoiceFn K) (nf : NormalFn D) (s : RngState)
    (means : Fin K → Fin D → ℝ)
    (variances : Fin K → Matrix (Fin D) (Fin D) ℝ) (pi_k : Fin K → ℝ)
    (count : ℕ) : List (List ℝ) :=
  List.ofFn fun n : Fin count =>
    List.ofFn fun d : Fin D =>
      nf s n (means (cf s n pi_k)) (variances (cf s n pi_k)) d

/-- Embedding of `GMM.sample` (gmm.py lines 136-163).  In source order:
the assertion `type(N) == int and N > 0` (the integer requirement is the
`ℤ` type of `count` here), then `np.random.seed(42)`, then the
`self.means is None` check, then the sampling loop. -/
def sampleRun (cf : ChoiceFn K) (nf : NormalFn D) (rng : RngState)
    (means : Option (Fin K → Fin D → ℝ))
    (variances : Fin K → Matrix (Fin D) (Fin D) ℝ) (pi_k : Fin K → ℝ)
    (count : ℤ) : Except String (List (List ℝ)) :=
  if 0 < count then
    let s := npSeed 42
    match means with
    | none => Except.error trainMsg
    | some m => Except.ok (sampleList cf nf s m variances pi_k count.toNat)
  else Except.error assertNMsg

/-! ### Concrete instances used as witnesses and counterexamples -/

/-- A concrete 2 × 1 dataset: the points `-1` and `1`. -/
def xw : Fin 2 → Fin 1 → ℝ := ![![-1], ![1]]

/-- A single initial mean `0` (a fixed point of EM on `xw`). -/
def mw : Fin 1 → Fin 1 → ℝ := ![![0]]

/-- A single initial covariance: the 1 × 1 identity. -/
def vw : Fin 1 → Matrix (Fin 1) (Fin 1) ℝ := ![1]

/-- A single initial mixture weight `1`. -/
def pw : Fin 1 → ℝ := ![1]

/-- A concrete 1 × 1 dataset: the single point `2`. -/
def xc : Fin 1 → Fin 1 → ℝ := ![![2]]

/-- Two initial means `-1` and `1`. -/
def mc : Fin 2 → Fin 1 → ℝ := ![![-1], ![1]]

/-- Two initial covariances, both the 1 × 1 identity. -/
def vc : Fin 2 → Matrix (Fin 1) (Fin 1) ℝ := ![1, 1]

/-- Two initial mixture weights, both `1/2`. -/
def pc : Fin 2 → ℝ := ![1 / 2, 1 / 2]

/-- A concrete categorical draw: always component 0. -/
def cf0 : ChoiceFn 1 := fun _ _ _ => 0

/-- A concrete multivariate-normal draw: always the zero vector. -/
def nf0 : NormalFn 1 := fun _ _ _ _ _ => 0

/-! ### Generic lemmas about the EM loop -/

/-- Running the state sequence one more step from the start is the same as
starting the sequence from the stepped state. -/
theorem emSeq_shift (x : Fin N → Fin D → ℝ) (p : Fin K → ℝ) (s : EMState N D K) :
    ∀ n, emSeq x p s (n + 1) = emSeq x p (emStep x p s) n
  | 0 => rfl
  | n + 1 => by
      show emStep x p (emSeq x p s (n + 1)) = emSeq x p (emStep x p s) (n + 1)
      rw [emSeq_shift x p s n]
      rfl

/-- Shifting the convergence test along the state sequence. -/
theorem stepConv_shift (x : Fin N → Fin D → ℝ) (p : Fin K → ℝ) (s : EMState N D K)
    (e : ℝ) (j : ℕ) :
    stepConv x p s e (j + 1) ↔ stepConv x p (emStep x p s) e j := by
  unfold stepConv
  rw [emSeq_shift x p s j, emSeq_shift x p s (j + 1)]

/-- The loop yields no `number_of_updates` value exactly when no executed
iteration satisfies the tolerance check. -/
theorem emLoop_fst_eq_none_iff (x : Fin N → Fin D → ℝ) (p : Fin K → ℝ) (e : ℝ) :
    ∀ (fuel iter : ℕ) (s : EMState N D K),
      (emLoop x p e fuel iter s).1 = none ↔ ∀ j < fuel, ¬ stepConv x p s e j := by
  intro fuel
  induction fuel with
  | zero =>
      intro iter s
      simp [emLoop]
  | succ fuel ih =>
      intro iter s
      have h0 : stepConv x p s e 0 ↔ |s.l - (emStep x p s).l| < e := Iff.rfl
      by_cases h : |s.l - (emStep x p s).l| < e
      · simp only [emLoop]
        rw [if_pos h]
        constructor
        · intro hc
          exact (Option.some_ne_none iter hc).elim
        · intro hall
          exact (hall 0 (Nat.succ_pos fuel) (h0.mpr h)).elim
      · simp only [emLoop]
        rw [if_neg h]
        rw [ih (iter + 1) (emStep x p s)]
        constructor
        · intro hall j hj
          cases j with
          | zero => exact fun hc => h (h0.mp hc)
          | succ j' =>
              intro hc
              exact hall j' (by omega) ((stepConv_shift x p s e j').mp hc)
        · intro hall j hj hc
          exact hall (j + 1) (by omega) ((stepConv_shift x p s e j).mpr hc)

/-- The loop yields `number_of_updates = some i` exactly when the first
iteration satisfying the tolerance check is iteration `i - iter` (with the
counter starting at `iter`), within the budget. -/
theorem emLoop_fst_eq_some_iff (x : Fin N → Fin D → ℝ) (p : Fin K → ℝ) (e : ℝ) :
    ∀ (fuel iter : ℕ) (s : EMState N D K) (i : ℕ),
      (emLoop x p e fuel iter s).1 = some i ↔
        ∃ j, j < fuel ∧ (∀ j' < j, ¬ stepConv x p s e j') ∧ stepConv x p s e j ∧
          i = iter + j := by
  intro fuel
  induction fuel with
  | zero =>
      intro iter s i
      simp [emLoop]
  | succ fuel ih =>
      intro iter s i
      have h0 : stepConv x p s e 0 ↔ |s.l - (emStep x p s).l| < e := Iff.rfl
      by_cases h : |s.l - (emStep x p s).l| < e
      · simp only [emLoop]
        rw [if_pos h]
        constructor
        · intro hc
          have hii : iter = i := by simpa using hc
          exact ⟨0, Nat.succ_pos _, fun j' hj' => absurd hj' (Nat.not_lt_zero j'),
            h0.mpr h, by omega⟩
        · rintro ⟨j, hj, hpre, hconv, rfl⟩
          cases j with
          | zero => simp
          | succ j' => exact absurd (h0.mpr h) (hpre 0 (Nat.succ_pos _))
      · simp only [emLoop]
        rw [if_neg h]
        rw [ih (iter + 1) (emStep x p s) i]
        constructor
        · rintro ⟨j, hj, hpre, hconv, rfl⟩
          refine ⟨j + 1, by omega, ?_, (stepConv_shift x p s e j).mpr hconv, by omega⟩
          intro j' hj'
          cases j' with
          | zero => exact fun hc => h (h0.mp hc)
          | succ j'' =>
              intro hc
              exact hpre j'' (by omega) ((stepConv_shift x p s e j'').mp hc)
        · rintro ⟨j, hj, hpre, hconv, rfl⟩
          cases j with
          | zero => exact absurd hconv fun hc => h (h0.mp hc)
          | succ j' =>
              refine ⟨j', by omega, ?_, (stepConv_shift x p s e j').mp hconv, by omega⟩
              intro j'' hj'' hc
              exact hpre (j'' + 1) (by omega) ((stepConv_shift x p s e j'').mpr hc)

/-- A Gaussian density value is never negative: it is a positive
exponential divided by a non-negative square root. -/
theorem getLikelihood_nonneg {D : ℕ} (g : Gaussian_pdf D) (x : Fin D → ℝ) :
    0 ≤ g.getLikelihood x :=
  div_nonneg (Real.exp_pos _).le (Real.sqrt_nonneg _)

/-- A weighted density is non-negative when its weight is. -/
theorem wDensity_nonneg {means : Fin K → Fin D → ℝ}
    {variances : Fin K → Matrix (Fin D) (Fin D) ℝ} {pi_k : Fin K → ℝ}
    {xi : Fin D → ℝ} {k : Fin K} (hp : 0 ≤ pi_k k) :
    0 ≤ wDensity means variances pi_k xi k :=
  mul_nonneg hp (getLikelihood_nonneg _ _)

/-- Row `i` of the responsibility matrix sums to `1` whenever its total
unnormalized mass is non-zero. -/
theorem gamma_row_sum_eq_one (x : Fin N → Fin D → ℝ) (means : Fin K → Fin D → ℝ)
    (variances : Fin K → Matrix (Fin D) (Fin D) ℝ) (pi_k : Fin K → ℝ) (i : Fin N)
    (h : (∑ k, wDensity means variances pi_k (x i) k) ≠ 0) :
    ∑ k, gamma_ik x means variances pi_k i k = 1 := by
  unfold gamma_ik
  rw [← Finset.sum_div]
  exact div_self h

/-! ### Claim theorems (generic part) -/

/-- C1: the claim says that a `fit` run whose iterations never satisfy the
tolerance stops silently and returns `max_iter`.  The code instead never
assigns `number_of_updates` on that path, so `return number_of_updates`
raises UnboundLocalError: the loop result is `none`, not the budget. -/
theorem fit_budget_exhaustion_no_return_value (x : Fin N → Fin D → ℝ)
    (m : Fin K → Fin D → ℝ) (v : Fin K → Matrix (Fin D) (Fin D) ℝ) (p : Fin K → ℝ)
    (max_iter : ℕ) (e : ℝ) (h : ∀ j < max_iter, ¬ fitConv x m v p e j) :
    (fitEM x m v p max_iter e).1 = none :=
  (emLoop_fst_eq_none_iff x p e max_iter 0 (initState x m v p)).mpr h

/-- C3: `fit` returns `some i` exactly when the 0-based loop counter value
at the break is `i`, i.e. iteration `i` is the first one whose absolute
log-likelihood change is below the tolerance and `i` is within the budget;
consequently any returned count is at most `max_iter` and the change at
the returned iteration is below the tolerance. -/
theorem fit_reports_break_counter (x : Fin N → Fin D → ℝ)
    (m : Fin K → Fin D → ℝ) (v : Fin K → Matrix (Fin D) (Fin D) ℝ) (p : Fin K → ℝ)
    (max_iter : ℕ) (e : ℝ) (i : ℕ) :
    ((fitEM x m v p max_iter e).1 = some i ↔
      (i < max_iter ∧ (∀ j < i, ¬ fitConv x m v p e j) ∧ fitConv x m v p e i))
    ∧ ((fitEM x m v p max_iter e).1 = some i →
      i ≤ max_iter ∧ fitConv x m v p e i) := by
  have hmain := emLoop_fst_eq_some_iff x p e max_iter 0 (initState x m v p) i
  have hiff : (fitEM x m v p max_iter e).1 = some i ↔
      (i < max_iter ∧ (∀ j < i, ¬ fitConv x m v p e j) ∧ fitConv x m v p e i) := by
    rw [show (fitEM x m v p max_iter e) = emLoop x p e max_iter 0 (initState x m v p)
      from rfl]
    rw [hmain]
    constructor
    · rintro ⟨j, hj, hpre, hconv, rfl⟩
      exact ⟨by omega, fun j' hj' => hpre j' (by omega), by simpa using hconv⟩
    · rintro ⟨hi, hpre, hconv⟩
      exact ⟨i, hi, hpre, hconv, by omega⟩
  refine ⟨hiff, fun hsome => ?_⟩
  rcases hiff.mp hsome with ⟨hi, _, hconv⟩
  exact ⟨hi.le, hconv⟩

/-- C5: the `Gaussian_pdf` constructor regularizes the covariance by
`0.001 × I` exactly when its rank is below `D` (leaving it unchanged
otherwise), inverts the regularized covariance, sets
`c = (2π)^D × det(covariance)`, and `getLikelihood` returns
`exp(-0.5 (x-mean)ᵀ inv(covariance) (x-mean)) / sqrt(c)`. -/
theorem gaussian_component_contract {D : ℕ} (mean : Fin D → ℝ)
    (variance : Matrix (Fin D) (Fin D) ℝ) :
    (Gaussian_pdf.make mean variance).mean = mean
    ∧ (Gaussian_pdf.make mean variance).variance =
        (if variance.rank < D then
          variance + (0.001 : ℝ) • (1 : Matrix (Fin D) (Fin D) ℝ)
         else variance)
    ∧ (Gaussian_pdf.make mean variance).inv =
        ((Gaussian_pdf.make mean variance).variance)⁻¹
    ∧ (Gaussian_pdf.make mean variance).c =
        (2 * Real.pi) ^ D * ((Gaussian_pdf.make mean variance).variance).det
    ∧ ∀ x : Fin D → ℝ,
        (Gaussian_pdf.make mean variance).getLikelihood x =
          Real.exp (-0.5 * Matrix.dotProduct (fun d => x d - mean d)
              ((((Gaussian_pdf.make mean variance).variance)⁻¹).mulVec
                fun d => x d - mean d)) /
            Real.sqrt (Gaussian_pdf.make mean variance).c := by
  refine ⟨rfl, ?_, rfl, rfl, fun x => rfl⟩
  unfold Gaussian_pdf.make
  by_cases h : variance.rank < D
  · rw [if_pos h, if_pos h, one_mul, add_comm]
  · rw [if_neg h, if_neg h, zero_mul, zero_smul, zero_add]

/-- C8: in each M step all means are updated first, to the
gamma-weighted data averages over the cluster masses, and every new
covariance is the gamma-weighted sum of outer products of residuals taken
against the *newly updated* mean, divided by the cluster mass. -/
theorem mstep_covariances_use_new_means (x : Fin N → Fin D → ℝ)
    (selfPi : Fin K → ℝ) (s : EMState N D K) :
    (∀ k d, (emStep x selfPi s).means k d =
        (∑ i, x i d * gamma_ik x s.means s.variances s.pi_k i k) /
          N_k (gamma_ik x s.means s.variances s.pi_k) k)
    ∧ ∀ k, (emStep x selfPi s).variances k =
        (N_k (gamma_ik x s.means s.variances s.pi_k) k)⁻¹ •
          ∑ i, gamma_ik x s.means s.variances s.pi_k i k •
            Matrix.vecMulVec
              (fun d => x i d - (emStep x selfPi s).means k d)
              (fun d => x i d - (emStep x selfPi s).means k d) :=
  ⟨fun _ _ => rfl, fun _ => rfl⟩

/-- C6: after an E step in which every data point has positive total
unnormalized density mass, every row of the responsibility matrix sums
to 1. -/
theorem estep_rows_normalized (x : Fin N → Fin D → ℝ) (means : Fin K → Fin D → ℝ)
    (variances : Fin K → Matrix (Fin D) (Fin D) ℝ) (pi_k : Fin K → ℝ)
    (h : ∀ i, 0 < ∑ k, wDensity means variances pi_k (x i) k) (i : Fin N) :
    ∑ k, gamma_ik x means variances pi_k i k = 1 :=
  gamma_row_sum_eq_one x means variances pi_k i (h i).ne'

/-- C7: after an M step on a non-empty dataset whose responsibility rows
were normalizable (positive mass) and whose incoming weights are
non-negative, the new mixture weights `N_k / N` are non-negative and sum
to 1. -/
theorem mstep_weights_form_simplex (x : Fin N → Fin D → ℝ)
    (means : Fin K → Fin D → ℝ) (variances : Fin K → Matrix (Fin D) (Fin D) ℝ)
    (pi_k : Fin K → ℝ) (hN : 0 < N)
    (hmass : ∀ i, 0 < ∑ k, wDensity means variances pi_k (x i) k)
    (hp : ∀ k, 0 ≤ pi_k k) :
    (∀ k, 0 ≤ newPi (gamma_ik x means variances pi_k) k)
    ∧ ∑ k, newPi (gamma_ik x means variances pi_k) k = 1 := by
  have hg : ∀ i k, 0 ≤ gamma_ik x means variances pi_k i k := by
    intro i k
    unfold gamma_ik
    exact div_nonneg (wDensity_nonneg (hp k)) (hmass i).le
  constructor
  · intro k
    exact div_nonneg (Finset.sum_nonneg fun i _ => hg i k) (Nat.cast_nonneg N)
  · unfold newPi N_k
    rw [← Finset.sum_div, Finset.sum_comm]
    rw [Finset.sum_congr rfl fun i _ =>
      gamma_row_sum_eq_one x means variances pi_k i (hmass i).ne']
    rw [Finset.sum_const, Finset.card_univ, Fintype.card_fin, nsmul_eq_mul, mul_one]
    exact div_self (Nat.cast_ne_zero.mpr hN.ne')

/-! ### Evaluation lemmas for identity covariances -/

/-- Building a Gaussian component on the identity covariance: the identity
has full rank, so no regularization happens; its inverse and determinant
are again the identity and `1`. -/
theorem make_id {D : ℕ} (mean : Fin D → ℝ) :
    Gaussian_pdf.make mean (1 : Matrix (Fin D) (Fin D) ℝ) =
      ⟨mean, 1, 1, (2 * Real.pi) ^ D⟩ := by
  unfold Gaussian_pdf.make
  have hr : ¬((1 : Matrix (Fin D) (Fin D) ℝ).rank < D) := by
    rw [Matrix.rank_one, Fintype.card_fin]
    exact lt_irrefl D
  rw [if_neg hr]
  simp [inv_one, Matrix.det_one]

/-- The density of a Gaussian component with identity covariance. -/
theorem getLikelihood_id {D : ℕ} (mean x : Fin D → ℝ) :
    (Gaussian_pdf.make mean (1 : Matrix (Fin D) (Fin D) ℝ)).getLikelihood x =
      Real.exp (-0.5 * ∑ d, (x d - mean d) * (x d - mean d)) /
        Real.sqrt ((2 * Real.pi) ^ D) := by
  rw [make_id]
  unfold Gaussian_pdf.getLikelihood Matrix.dotProduct
  rw [Matrix.one_mulVec]

/-- The density of a Gaussian component with identity covariance is
strictly positive. -/
theorem getLikelihood_id_pos {D : ℕ} (mean x : Fin D → ℝ) :
    0 < (Gaussian_pdf.make mean (1 : Matrix (Fin D) (Fin D) ℝ)).getLikelihood x := by
  rw [getLikelihood_id]
  have hpi : (0 : ℝ) < (2 * Real.pi) ^ D := by positivity
  exact div_pos (Real.exp_pos _) (Real.sqrt_pos.mpr hpi)

/-! ### The fixed-point run on `xw` -/

/-- On the witness configuration the single weighted density is positive. -/
theorem wd_w_pos (i : Fin 2) : 0 < wDensity mw vw pw (xw i) 0 := by
  unfold wDensity
  have hp : pw 0 = 1 := by simp [pw]
  have hv : vw 0 = (1 : Matrix (Fin 1) (Fin 1) ℝ) := by simp [vw]
  rw [hp, hv, one_mul]
  exact getLikelihood_id_pos _ _

/-- On the witness configuration every row mass is positive. -/
theorem mass_w_pos (i : Fin 2) : 0 < ∑ k, wDensity mw vw pw (xw i) k := by
  rw [Fin.sum_univ_one]
  exact wd_w_pos i

/-- On the witness configuration all responsibilities are `1`. -/
theorem gamma_w_eq_one (i : Fin 2) (k : Fin 1) : gamma_ik xw mw vw pw i k = 1 := by
  have hk : k = 0 := Subsingleton.elim k 0
  subst hk
  unfold gamma_ik
  rw [Fin.sum_univ_one]
  exact div_self (wd_w_pos i).ne'

/-- On the witness configuration every cluster mass is `2`. -/
theorem Nk_w (k : Fin 1) : N_k (gamma_ik xw mw vw pw) k = 2 := by
  unfold N_k
  rw [Fin.sum_univ_two, gamma_w_eq_one 0 k, gamma_w_eq_one 1 k]
  norm_num

/-- The M-step mean on the witness configuration reproduces `mw`. -/
theorem mstepMeans_w : mstepMeans xw (gamma_ik xw mw vw pw) = mw := by
  funext k d
  have hk : k = 0 := Subsingleton.elim k 0
  have hd : d = 0 := Subsingleton.elim d 0
  subst hk
  subst hd
  unfold mstepMeans
  rw [Nk_w 0, Fin.sum_univ_two, gamma_w_eq_one 0 0, gamma_w_eq_one 1 0]
  norm_num [xw, mw]

/-- The M-step covariance on the witness configuration reproduces `vw`. -/
theorem mstepVariances_w : mstepVariances xw (gamma_ik xw mw vw pw) mw = vw := by
  funext k
  have hk : k = 0 := Subsingleton.elim k 0
  subst hk
  unfold mstepVariances
  rw [Nk_w 0, Fin.sum_univ_two, gamma_w_eq_one 0 0, gamma_w_eq_one 1 0]
  have hv : vw 0 = (1 : Matrix (Fin 1) (Fin 1) ℝ) := by simp [vw]
  rw [hv]
  ext a b
  have ha : a = 0 := Subsingleton.elim a 0
  have hb : b = 0 := Subsingleton.elim b 0
  subst ha
  subst hb
  simp [Matrix.vecMulVec_apply, Matrix.one_apply_eq, xw, mw]
  norm_num

/-- The M-step weights on the witness configuration reproduce `pw`. -/
theorem newPi_w : newPi (gamma_ik xw mw vw pw) = pw := by
  funext k
  have hk : k = 0 := Subsingleton.elim k 0
  subst hk
  unfold newPi
  rw [Nk_w 0]
  norm_num [pw]

/-- The witness configuration is a fixed point of the EM loop body. -/
theorem emStep_w_fixed : emStep xw pw (initState xw mw vw pw) = initState xw mw vw pw := by
  show EMState.mk (mstepMeans xw (gamma_ik xw mw vw pw))
      (mstepVariances xw (gamma_ik xw mw vw pw) (mstepMeans xw (gamma_ik xw mw vw pw)))
      (newPi (gamma_ik xw mw vw pw))
      (compute_log_likelihood xw (mstepMeans xw (gamma_ik xw mw vw pw))
        (mstepVariances xw (gamma_ik xw mw vw pw)
          (mstepMeans xw (gamma_ik xw mw vw pw))) pw)
      = initState xw mw vw pw
  rw [mstepMeans_w, mstepVariances_w, newPi_w]
  rfl

/-- On the witness configuration the first convergence check passes:
the log-likelihood change of iteration 0 is zero. -/
theorem fitConv_w_zero : fitConv xw mw vw pw (1 / 1000) 0 := by
  unfold fitConv stepConv
  have h0 : emSeq xw pw (initState xw mw vw pw) 0 = initState xw mw vw pw := rfl
  have h1 : emSeq xw pw (initState xw mw vw pw) 1 = initState xw mw vw pw := by
    show emStep xw pw (emSeq xw pw (initState xw mw vw pw) 0) = initState xw mw vw pw
    rw [h0]
    exact emStep_w_fixed
  rw [h0, h1, sub_self, abs_zero]
  norm_num

/-! ### Witnesses -/

/-- C1 witness: with a budget of 0 iterations, no iteration can satisfy the
tolerance, and the loop produces no `number_of_updates` value. -/
theorem fit_budget_exhaustion_no_return_value_witness :
    (fitEM xw mw vw pw 0 (1 / 1000)).1 = none :=
  fit_budget_exhaustion_no_return_value xw mw vw pw 0 (1 / 1000)
    (fun j hj => absurd hj (Nat.not_lt_zero j))

/-- C3 witness: on the fixed-point configuration convergence is detected at
loop counter 0 and `fit` returns exactly 0. -/
theorem fit_reports_break_counter_witness :
    (fitEM xw mw vw pw 5 (1 / 1000)).1 = some 0 :=
  ((fit_reports_break_counter xw mw vw pw 5 (1 / 1000) 0).1).mpr
    ⟨by norm_num, fun j hj => absurd hj (Nat.not_lt_zero j), fitConv_w_zero⟩

/-- C6 witness: on the witness configuration, row 0 of the responsibility
matrix sums to 1. -/
theorem estep_rows_normalized_witness :
    ∑ k, gamma_ik xw mw vw pw (0 : Fin 2) k = 1 :=
  estep_rows_normalized xw mw vw pw mass_w_pos 0

/-- C7 witness: on the witness configuration, the M-step weight is
non-negative and the weights sum to 1. -/
theorem mstep_weights_form_simplex_witness :
    0 ≤ newPi (gamma_ik xw mw vw pw) 0
    ∧ ∑ k, newPi (gamma_ik xw mw vw pw) k = 1 := by
  have hp : ∀ k : Fin 1, 0 ≤ pw k := by
    intro k
    have hk : k = 0 := Subsingleton.elim k 0
    subst hk
    norm_num [pw]
  exact ⟨(mstep_weights_form_simplex xw mw vw pw (by norm_num) mass_w_pos hp).1 0,
    (mstep_weights_form_simplex xw mw vw pw (by norm_num) mass_w_pos hp).2⟩

/-! ### C2: the convergence log-likelihood is evaluated at stale weights -/

/-- The two weighted densities of the point `2` under the `xc` configuration. -/
theorem wd_c_vals :
    wDensity mc vc pc (xc 0) 0 =
      1 / 2 * (Real.exp (-(9 : ℝ) / 2) / Real.sqrt (2 * Real.pi))
    ∧ wDensity mc vc pc (xc 0) 1 =
      1 / 2 * (Real.exp (-(1 : ℝ) / 2) / Real.sqrt (2 * Real.pi)) := by
  constructor
  · unfold wDensity
    have hv : vc 0 = (1 : Matrix (Fin 1) (Fin 1) ℝ) := by simp [vc]
    rw [hv, getLikelihood_id, Fin.sum_univ_one]
    norm_num [xc, mc, pc]
  · unfold wDensity
    have hv : vc 1 = (1 : Matrix (Fin 1) (Fin 1) ℝ) := by simp [vc]
    rw [hv, getLikelihood_id, Fin.sum_univ_one]
    norm_num [xc, mc, pc]

/-- C2: the claim says the convergence log-likelihood of every iteration is
computed under the new means, new covariances *and new weights*.  In the
code the local `pi_k = N_k / N` is rebound while `self.pi_k` keeps its
pre-loop value, and `compute_log_likelihood` defaults to `self.pi_k`: the
first conjunct shows the likelihood argument triple actually used is
(new means, new covariances, *initial* weights `pc`), and the second shows
on a concrete configuration the new weights differ from `pc`, so the
weights used are not the new ones. -/
theorem loop_likelihood_uses_stale_weights :
    (emStep xc pc (initState xc mc vc pc)).l =
      compute_log_likelihood xc (emStep xc pc (initState xc mc vc pc)).means
        (emStep xc pc (initState xc mc vc pc)).variances pc
    ∧ (emStep xc pc (initState xc mc vc pc)).pi_k 0 ≠ pc 0 := by
  refine ⟨rfl, ?_⟩
  have hstep : (emStep xc pc (initState xc mc vc pc)).pi_k 0 =
      newPi (gamma_ik xc mc vc pc) 0 := rfl
  rw [hstep]
  unfold newPi N_k
  rw [Fin.sum_univ_one, Nat.cast_one, div_one]
  unfold gamma_ik
  rw [Fin.sum_univ_two]
  have h0 := wd_c_vals.1
  have h1 := wd_c_vals.2
  have hs : 0 < Real.sqrt (2 * Real.pi) := Real.sqrt_pos.mpr (by positivity)
  have hexp : Real.exp (-(9 : ℝ) / 2) < Real.exp (-(1 : ℝ) / 2) :=
    Real.exp_lt_exp.mpr (by norm_num)
  have hA : 0 < wDensity mc vc pc (xc 0) 0 := by
    rw [h0]
    positivity
  have hB : 0 < wDensity mc vc pc (xc 0) 1 := by
    rw [h1]
    positivity
  have hAB : wDensity mc vc pc (xc 0) 0 < wDensity mc vc pc (xc 0) 1 := by
    rw [h0, h1]
    gcongr
  have hlt : wDensity mc vc pc (xc 0) 0 /
      (wDensity mc vc pc (xc 0) 0 + wDensity mc vc pc (xc 0) 1) < 1 / 2 := by
    rw [div_lt_iff₀ (by linarith)]
    linarith
  have hpc : pc 0 = 1 / 2 := by norm_num [pc]
  rw [hpc]
  exact ne_of_lt hlt

/-! ### C9 and C10 -/

/-- C9: sampling from an unfit model (`means` still `None`) raises; a
non-positive count fails the assertion; and on a fitted model with
positive integer count the result is exactly `count` rows, each of
dimension `D`. -/
theorem sample_contract (cf : ChoiceFn K) (nf : NormalFn D) (rng : RngState)
    (variances : Fin K → Matrix (Fin D) (Fin D) ℝ) (pi_k : Fin K → ℝ) :
    (∀ count : ℤ, 0 < count →
      sampleRun cf nf rng none variances pi_k count = Except.error trainMsg)
    ∧ (∀ (means : Option (Fin K → Fin D → ℝ)) (count : ℤ), count ≤ 0 →
      sampleRun cf nf rng means variances pi_k count = Except.error assertNMsg)
    ∧ ∀ (m : Fin K → Fin D → ℝ) (count : ℤ), 0 < count →
      sampleRun cf nf rng (some m) variances pi_k count =
          Except.ok (sampleList cf nf (npSeed 42) m variances pi_k count.toNat)
        ∧ (sampleList cf nf (npSeed 42) m variances pi_k count.toNat).length =
            count.toNat
        ∧ ∀ row ∈ sampleList cf nf (npSeed 42) m variances pi_k count.toNat,
            row.length = D := by
  refine ⟨?_, ?_, ?_⟩
  · intro count hc
    unfold sampleRun
    rw [if_pos hc]
  · intro means count hc
    unfold sampleRun
    rw [if_neg (by omega : ¬(0 : ℤ) < count)]
  · intro m count hc
    refine ⟨?_, ?_, ?_⟩
    · unfold sampleRun
      rw [if_pos hc]
    · exact List.length_ofFn _
    · intro row hrow
      unfold sampleList at hrow
      rw [List.mem_ofFn] at hrow
      obtain ⟨n, rfl⟩ := hrow
      exact List.length_ofFn _

/-- C9 witness: concrete runs of the three branches with `K = D = 1`. -/
theorem sample_contract_witness :
    sampleRun cf0 nf0 (npSeed 7) none vw pw 5 = Except.error trainMsg
    ∧ sampleRun cf0 nf0 (npSeed 7) (some mw) vw pw (-2) = Except.error assertNMsg
    ∧ (sampleList cf0 nf0 (npSeed 42) mw vw pw (5 : ℤ).toNat).length = 5 := by
  refine ⟨(sample_contract cf0 nf0 (npSeed 7) vw pw).1 5 (by norm_num),
    (sample_contract cf0 nf0 (npSeed 7) vw pw).2.1 (some mw) (-2) (by norm_num), ?_⟩
  have h := ((sample_contract cf0 nf0 (npSeed 7) vw pw).2.2 mw 5 (by norm_num)).2.1
  simpa using h

/-- C10: both `fit` and `sample` begin with `np.random.seed(42)`, so their
results do not depend on the ambient state of the global random generator:
two runs on the same inputs (with the external draws being the same
deterministic functions of the seeded state) yield identical parameters,
return value, and samples; no argument allows varying the seed. -/
theorem global_seed_reset_determinism {N D K : ℕ} :
    (∀ (kmeansFit : KMeansFit N D K) (randFn : RandInit K D) (r₁ r₂ : RngState)
        (x : Fin N → Fin D → ℝ) (init : String) (max_iter : ℕ) (e : ℝ),
      fitRun kmeansFit randFn r₁ x init max_iter e =
        fitRun kmeansFit randFn r₂ x init max_iter e)
    ∧ ∀ (cf : ChoiceFn K) (nf : NormalFn D) (r₁ r₂ : RngState)
        (means : Option (Fin K → Fin D → ℝ))
        (variances : Fin K → Matrix (Fin D) (Fin D) ℝ) (pi_k : Fin K → ℝ)
        (count : ℤ),
      sampleRun cf nf r₁ means variances pi_k count =
        sampleRun cf nf r₂ means variances pi_k count :=
  ⟨fun _ _ _ _ _ _ _ _ => rfl, fun _ _ _ _ _ _ _ _ => rfl⟩

end

end GMMSpec
